import Mathlib

/-!
Shallow embedding of the Home Library App (src/library-app/app.js): the
IndexedDB-backed store, the catalog operations (add/edit via the book modal,
lend, return, import/export) and the list filtering/sorting helpers.

Modelling conventions, each noted at its definition:
* JS object fields that may be absent (`undefined`), `null`, or a string are
  modelled by `FVal`; the tag list field by `TVal`.  Spread-merge semantics
  (`{...a, ...b}`: a key present in `b` — even with value `null` — wins) is
  `FVal.over`.
* Timestamps (`new Date().toISOString()`) are opaque strings passed in as a
  `now` parameter.
* IndexedDB with `keyPath: 'id', autoIncrement: true` is a `Store`: a list of
  records in ascending key order plus the key generator `nextId` (generator
  starts at 1; `put` with an explicit key at or above the generator bumps it).
* A failure of a durable write (`StorageError`) is modelled by an oracle
  `fail : Nat → Bool` on the index of the element being imported.
-/

/-- A JS field value that is absent (`undefined`), `null`, or a string. -/
inductive FVal where
  | undef : FVal
  | null : FVal
  | str : String → FVal
deriving DecidableEq, Repr

/-- A JS field value for the `tags` field: absent, `null`, or an array of
strings. -/
inductive TVal where
  | undef : TVal
  | null : TVal
  | lst : List String → TVal
deriving DecidableEq, Repr

/-- JS `(v || d)` for a string-valued field: `undefined`, `null` and the empty
string are falsy. -/
def jsOrStr (v : FVal) (d : String) : String :=
  match v with
  | .str s => if s = "" then d else s
  | _ => d

/-- JS `(v || [])` for the tags field; note an empty array is truthy in JS, so
only `undefined`/`null` fall back. -/
def jsOrTags (v : TVal) : List String :=
  match v with
  | .lst l => l
  | _ => []

/-- JS `String.prototype.toLowerCase` on one character, modelled for ASCII
(the app's articles, statuses and example data are ASCII). -/
def charToLower (c : Char) : Char :=
  if 65 ≤ c.toNat ∧ c.toNat ≤ 90 then Char.ofNat (c.toNat + 32) else c

/-- JS `String.prototype.toLowerCase`, modelled for ASCII. -/
def jsToLower (s : String) : String :=
  ⟨s.data.map charToLower⟩

/-- JS `String.prototype.trim`: strip leading and trailing whitespace. -/
def jsTrim (s : String) : String :=
  ⟨((s.data.dropWhile Char.isWhitespace).reverse.dropWhile
      Char.isWhitespace).reverse⟩

/-- JS `String.prototype.startsWith`. -/
def jsStartsWith (s pre : String) : Bool :=
  pre.data.isPrefixOf s.data

/-- JS `String.prototype.slice(n)` with a non-negative index: drop the first
`n` code units (characters, in this BMP model). -/
def jsDrop (s : String) (n : Nat) : String :=
  ⟨s.data.drop n⟩

/-- `pat` occurs as a contiguous run inside `hay`. -/
def listContains (hay pat : List Char) : Bool :=
  match hay with
  | [] => pat.isEmpty
  | _ :: rest => pat.isPrefixOf hay || listContains rest pat

/-- JS `String.prototype.includes`: the pattern occurs as a substring (the
empty pattern always does). -/
def jsIncludes (s q : String) : Bool :=
  listContains s.data q.data

/-- JS `String.prototype.split(',')`: cut at every comma; no merging of
adjacent separators, so empty pieces survive. -/
def splitCommaAux : List Char → List Char → List String
  | [], acc => [⟨acc.reverse⟩]
  | c :: rest, acc =>
    if c = ',' then ⟨acc.reverse⟩ :: splitCommaAux rest []
    else splitCommaAux rest (c :: acc)

/-- JS `s.split(',')` on a whole string. -/
def jsSplitComma (s : String) : List String :=
  splitCommaAux s.data []

/-- Spread-merge of one field: `{...old, ...new}` keeps `old` only when the key
is absent in `new`; a present `null` wins. -/
def FVal.over (old new : FVal) : FVal :=
  match new with
  | .undef => old
  | v => v

/-- Spread-merge for the tags field. -/
def TVal.over (old new : TVal) : TVal :=
  match new with
  | .undef => old
  | v => v

/-- A stored book record.  `id` is the IndexedDB key (a positive integer in
every reachable store).  All other fields may be absent. -/
structure Book where
  id : Nat := 0
  title : FVal := .undef
  author : FVal := .undef
  isbn : FVal := .undef
  location : FVal := .undef
  notes : FVal := .undef
  tags : TVal := .undef
  status : FVal := .undef
  lentTo : FVal := .undef
  lendDate : FVal := .undef
  dueDate : FVal := .undef
  coverUrl : FVal := .undef
  createdAt : FVal := .undef
  updatedAt : FVal := .undef
deriving DecidableEq, Repr

/-- The `id` field of a JSON import element: absent, `null`, a number (we only
need the naturals the store ever assigns), or a string. -/
inductive RawId where
  | undef : RawId
  | null : RawId
  | num : Nat → RawId
  | str : String → RawId
deriving DecidableEq, Repr

/-- A JSON object appearing as one element of an imported array. -/
structure RawBook where
  id : RawId := .undef
  title : FVal := .undef
  author : FVal := .undef
  isbn : FVal := .undef
  location : FVal := .undef
  notes : FVal := .undef
  tags : TVal := .undef
  status : FVal := .undef
  lentTo : FVal := .undef
  lendDate : FVal := .undef
  dueDate : FVal := .undef
  coverUrl : FVal := .undef
  createdAt : FVal := .undef
  updatedAt : FVal := .undef
deriving DecidableEq, Repr

/-- One element of the imported JSON array.  `nonObj` stands for `null` or a
primitive: `raw || {}` turns falsy values into `{}`, and spreading a truthy
primitive contributes no field of the book schema (a spread string only yields
numeric-index properties, which nothing in the app reads). -/
inductive RawElem where
  | obj : RawBook → RawElem
  | nonObj : RawElem
deriving DecidableEq, Repr

/-- The parsed JSON payload handed to import: either an array of elements or
some non-array JSON value. -/
inductive ImportInput where
  | arr : List RawElem → ImportInput
  | nonArray : ImportInput
deriving DecidableEq, Repr

/-- What the user observes at the end of `importData`: the success alert or the
failure alert carrying the error message. -/
inductive ImportOutcome where
  | success : ImportOutcome
  | failure : String → ImportOutcome
deriving DecidableEq, Repr

/-- The IndexedDB object store `books`: records in ascending key order together
with the auto-increment key generator. -/
structure Store where
  books : List Book := []
  nextId : Nat := 1
deriving DecidableEq, Repr

/-- The empty store, as created on first open: no records, generator at 1. -/
def store0 : Store := {}

/-- `dbAPI.add`: the key generator assigns the new record's id (the record
supplied by the app never carries one) and the record is appended — the
generator exceeds every existing key, so appending keeps ascending key order. -/
def Store.addBook (st : Store) (b : Book) : Store :=
  { books := st.books ++ [{ b with id := st.nextId }], nextId := st.nextId + 1 }

/-- Insert a record into an id-sorted list at its key position. -/
def insertByKey (b : Book) : List Book → List Book
  | [] => [b]
  | x :: xs => if b.id < x.id then b :: x :: xs else x :: insertByKey b xs

/-- `dbAPI.put`: insert-or-replace by key.  When the key is new, IndexedDB
bumps the generator past an explicit key at or above it. -/
def Store.putBook (st : Store) (b : Book) : Store :=
  if st.books.any (fun x => x.id == b.id) then
    { st with books := st.books.map (fun x => if x.id == b.id then b else x) }
  else
    { books := insertByKey b st.books, nextId := max st.nextId (b.id + 1) }

/-- `dbAPI.delete`: remove by key; idempotent. -/
def Store.deleteBook (st : Store) (id : Nat) : Store :=
  { st with books := st.books.filter (fun x => x.id ≠ id) }

/-- The active filter triple (`state.filters`). -/
structure Filters where
  search : String := ""
  room : String := ""
  status : String := ""
deriving DecidableEq, Repr

/-- `matchesFilters` from app.js: room must equal `location || ''` when set,
status must equal `status || 'available'` when set, and a non-empty search text
must occur case-insensitively in one of title, author, isbn or the comma-joined
tags. -/
def matchesFilters (b : Book) (f : Filters) : Bool :=
  if f.room ≠ "" ∧ jsOrStr b.location "" ≠ f.room then false
  else if f.status ≠ "" ∧ jsOrStr b.status "available" ≠ f.status then false
  else if f.search = "" then true
  else
    let q := jsToLower f.search
    let fields := [b.title, b.author, b.isbn,
      .str (String.intercalate ", " (jsOrTags b.tags))].map
        (fun x => jsToLower (jsOrStr x ""))
    fields.any (fun fl => jsIncludes fl q)

/-- `normalizeTitle` from app.js: trim, then strip one leading article checked
case-insensitively (the check is on the lowercase copy, the slice is of the
original). -/
def normalizeTitle (t : FVal) : String :=
  let s := jsTrim (jsOrStr t "")
  let low := jsToLower s
  if jsStartsWith low "the " then jsDrop s 4
  else if jsStartsWith low "a " then jsDrop s 2
  else if jsStartsWith low "an " then jsDrop s 3
  else s

/-- `localeCompare(..., { sensitivity: 'base' })` modelled for ASCII strings:
case-insensitive lexicographic comparison. -/
def cmpCharList : List Char → List Char → Ordering
  | [], [] => .eq
  | [], _ :: _ => .lt
  | _ :: _, [] => .gt
  | a :: as, b :: bs =>
    match compare a.toNat b.toNat with
    | .eq => cmpCharList as bs
    | o => o

/-- `localeCompare(..., { sensitivity: 'base' })` modelled for ASCII strings:
case-insensitive lexicographic comparison. -/
def localeCompareBase (a b : String) : Ordering :=
  cmpCharList (jsToLower a).data (jsToLower b).data

/-- `compareByTitle` from app.js: empty normalized titles sort after non-empty
ones; otherwise compare the normalized titles case-insensitively. -/
def compareByTitle (a b : Book) : Ordering :=
  let ta := normalizeTitle a.title
  let tb := normalizeTitle b.title
  if ta = "" ∧ tb = "" then .eq
  else if ta = "" then .gt
  else if tb = "" then .lt
  else localeCompareBase ta tb

/-- Stable insertion used to model `Array.prototype.sort` (stable per ES2019):
an element moves past exactly those elements it compares greater than. -/
def sortInsert (cmp : Book → Book → Ordering) (x : Book) : List Book → List Book
  | [] => [x]
  | y :: ys => if cmp x y = .gt then y :: sortInsert cmp x ys else x :: y :: ys

/-- Stable sort by comparator, modelling `Array.prototype.sort`. -/
def sortByCmp (cmp : Book → Book → Ordering) : List Book → List Book
  | [] => []
  | x :: xs => sortInsert cmp x (sortByCmp cmp xs)

/-- `renderList`'s data pipeline: filter the cached records (the cache mirrors
`getAll()` after every mutation) and sort by the title comparator. -/
def listBooks (st : Store) (f : Filters) : List Book :=
  sortByCmp compareByTitle (st.books.filter (fun b => matchesFilters b f))

/-- `parseTags` from app.js: split the comma-separated string, trim each piece,
drop only the empty ones (duplicates survive). -/
def parseTags (s : String) : List String :=
  ((jsSplitComma s).map jsTrim).filter (fun t => t ≠ "")

/-- The book modal's form data at save time.  `id` is `null` for the Add flow
and the record's id for the Edit flow (`form.id.value ? Number(...) : null`);
`coverFile` is the data URL read from a chosen file, `coverPrefill` the hidden
prefill input. -/
structure BookForm where
  id : Option Nat := none
  title : String := ""
  author : String := ""
  isbn : String := ""
  location : String := ""
  tags : String := ""
  notes : String := ""
  coverPrefill : String := ""
  coverFile : Option String := none
deriving DecidableEq, Repr

/-- `existing?.coverUrl || null` — a present non-empty string survives,
everything else collapses to `null`. -/
def coverOrNull (v : FVal) : FVal :=
  match v with
  | .str s => if s = "" then .null else .str s
  | _ => .null

/-- `const id = form.id.value ? Number(form.id.value) : null` followed by the
truthiness test `if (id)`: the id `0` is falsy and behaves like no id. -/
def normId : Option Nat → Option Nat
  | some i => if i = 0 then none else some i
  | none => none

/-- The save handler of the book modal (`wireBookModal`): build the trimmed
book object, reject an empty trimmed title before touching the store, then
either overlay onto the existing record and `put` (edit) or stamp and `add`
(add).  `if (id)` treats the id `0` as falsy, so it is normalized away. -/
def saveBook (form : BookForm) (now : String) (st : Store) : Store :=
  let idOpt : Option Nat := normId form.id
  let coverUrl : FVal :=
    match form.coverFile with
    | some u => .str u
    | none =>
      match idOpt with
      | some i =>
        match st.books.find? (fun b => b.id == i) with
        | some ex => coverOrNull ex.coverUrl
        | none => .null
      | none => if form.coverPrefill = "" then .null else .str form.coverPrefill
  if jsTrim form.title = "" then st
  else
    match idOpt with
    | some i =>
      let base := (st.books.find? (fun b => b.id == i)).getD {}
      st.putBook
        { base with
          id := i
          title := .str (jsTrim form.title)
          author := .str (jsTrim form.author)
          isbn := .str (jsTrim form.isbn)
          location := .str (jsTrim form.location)
          tags := .lst (parseTags form.tags)
          notes := .str (jsTrim form.notes)
          coverUrl := coverUrl
          updatedAt := .str now }
    | none =>
      st.addBook
        { title := .str (jsTrim form.title)
          author := .str (jsTrim form.author)
          isbn := .str (jsTrim form.isbn)
          location := .str (jsTrim form.location)
          tags := .lst (parseTags form.tags)
          notes := .str (jsTrim form.notes)
          coverUrl := coverUrl
          status := .str "available"
          createdAt := .str now
          updatedAt := .str now }

/-- `new Date(s).toISOString()` for the `YYYY-MM-DD` strings produced by a
date input: such a string parses as UTC midnight. -/
def dateToISO (s : String) : String :=
  s ++ "T00:00:00.000Z"

/-- The confirm handler of the lend modal (`wireLendModal`): no-op when the id
is not in the cache or the trimmed borrower name is empty; otherwise overlay
the loan fields and `put`. -/
def lendBook (id : Nat) (lentToRaw lendDateRaw dueDateRaw : String)
    (now : String) (st : Store) : Store :=
  match st.books.find? (fun b => b.id == id) with
  | none => st
  | some book =>
    let lentTo := jsTrim lentToRaw
    if lentTo = "" then st
    else
      let lendDate : FVal :=
        if lendDateRaw = "" then .null else .str (dateToISO lendDateRaw)
      let dueDate : FVal :=
        if dueDateRaw = "" then .null else .str (dateToISO dueDateRaw)
      st.putBook
        { book with
          status := .str "lent"
          lentTo := .str lentTo
          lendDate := lendDate
          dueDate := dueDate
          updatedAt := .str now }

/-- `returnBook` from app.js (reached through `wireListActions`, which drops
the click when the id is not in the cache): overlay `status: 'available'` and
`null` loan fields, stamp `updatedAt`, and `put`. -/
def returnBook (id : Nat) (now : String) (st : Store) : Store :=
  match st.books.find? (fun b => b.id == id) with
  | none => st
  | some book =>
    st.putBook
      { book with
        status := .str "available"
        lentTo := .null
        lendDate := .null
        dueDate := .null
        updatedAt := .str now }

/-- `exportData` serializes `state.books` (the mirror of `getAll()`); a stored
record becomes a JSON object with its numeric id.  `JSON.stringify` drops
absent fields and keeps `null`s, which is exactly the `FVal` round-trip. -/
def exportBook (b : Book) : RawBook :=
  { id := .num b.id
    title := b.title
    author := b.author
    isbn := b.isbn
    location := b.location
    notes := b.notes
    tags := b.tags
    status := b.status
    lentTo := b.lentTo
    lendDate := b.lendDate
    dueDate := b.dueDate
    coverUrl := b.coverUrl
    createdAt := b.createdAt
    updatedAt := b.updatedAt }

/-- The whole-collection export: `JSON.stringify(state.books, ...)`. -/
def exportData (st : Store) : List RawElem :=
  st.books.map (fun b => .obj (exportBook b))

/-- The new-record object built on import's add path:
`{ ...rest, status: rest.status || 'available', createdAt: now, updatedAt: now }`
(`rest` is the element with its `id` stripped; the store assigns the id). -/
def newFromRaw (r : RawBook) (now : String) : Book :=
  { title := r.title
    author := r.author
    isbn := r.isbn
    location := r.location
    notes := r.notes
    tags := r.tags
    status := .str (jsOrStr r.status "available")
    lentTo := r.lentTo
    lendDate := r.lendDate
    dueDate := r.dueDate
    coverUrl := r.coverUrl
    createdAt := .str now
    updatedAt := .str now }

/-- The merged record built on import's merge path:
`{ ...byId.get(id), ...rest, id, updatedAt: now }` — the snapshot record
overlaid by every field the element carries, the id kept, `updatedAt`
restamped last. -/
def mergeBook (base : Book) (r : RawBook) (i : Nat) (now : String) : Book :=
  { id := i
    title := base.title.over r.title
    author := base.author.over r.author
    isbn := base.isbn.over r.isbn
    location := base.location.over r.location
    notes := base.notes.over r.notes
    tags := base.tags.over r.tags
    status := base.status.over r.status
    lentTo := base.lentTo.over r.lentTo
    lendDate := base.lendDate.over r.lendDate
    dueDate := base.dueDate.over r.dueDate
    coverUrl := base.coverUrl.over r.coverUrl
    createdAt := base.createdAt.over r.createdAt
    updatedAt := .str now }

/-- The test `id && byId.has(id)` plus the lookup `byId.get(id)`, against the
snapshot taken before the loop: only a truthy numeric id found in the snapshot
yields the merge base (the `byId` map is keyed by the stored numeric ids, so a
string id never matches). -/
def importLookup (snapshot : List Book) : RawId → Option (Nat × Book)
  | .num i =>
    if i ≠ 0 ∧ (snapshot.any (fun b => b.id == i)) then
      (snapshot.find? (fun b => b.id == i)).map (fun base => (i, base))
    else none
  | _ => none

/-- Import of one array element: a truthy numeric id found in the snapshot
takes the merge path; everything else — absent, `null`, `0`, a string id, an
unmatched number, or a non-object element — takes the add path. -/
def importStep (snapshot : List Book) (now : String) (st : Store)
    (e : RawElem) : Store :=
  match e with
  | .nonObj => st.addBook (newFromRaw {} now)
  | .obj r =>
    match importLookup snapshot r.id with
    | some (i, base) => st.putBook (mergeBook base r i now)
    | none => st.addBook (newFromRaw r now)

/-- The import loop: elements are committed one at a time; a failing durable
write (the oracle fires at that element's index) throws, which the single
`try`/`catch` around the loop turns into the failure alert — prior commits
stay, later elements are never reached. -/
def importGo (snapshot : List Book) (now : String) (fail : Nat → Bool)
    (i : Nat) (elems : List RawElem) (st : Store) : Store × ImportOutcome :=
  match elems with
  | [] => (st, .success)
  | e :: rest =>
    if fail i then (st, .failure "StorageError")
    else importGo snapshot now fail (i + 1) rest (importStep snapshot now st e)

/-- `importData` from app.js: reject a non-array payload before touching any
element, otherwise snapshot `byId` from `getAll()` and run the loop. -/
def importData (input : ImportInput) (now : String) (fail : Nat → Bool)
    (st : Store) : Store × ImportOutcome :=
  match input with
  | .nonArray => (st, .failure "Invalid format")
  | .arr elems => importGo st.books now fail 0 elems st

/-- The filter predicate as the specification words it: the room filter, when
non-empty, equals the record's location; the status filter, when non-empty,
equals the record's status with an empty status read as `available`; the search
text, when non-empty, occurs case-insensitively in at least one of title,
author, isbn, or the comma-joined tags, taken individually. -/
def matchesFiltersSpec (b : Book) (f : Filters) : Prop :=
  (f.room ≠ "" → jsOrStr b.location "" = f.room) ∧
  (f.status ≠ "" → jsOrStr b.status "available" = f.status) ∧
  (f.search ≠ "" →
    (jsIncludes (jsToLower (jsOrStr b.title "")) (jsToLower f.search) = true ∨
     jsIncludes (jsToLower (jsOrStr b.author "")) (jsToLower f.search) = true ∨
     jsIncludes (jsToLower (jsOrStr b.isbn "")) (jsToLower f.search) = true ∨
     jsIncludes (jsToLower (String.intercalate ", " (jsOrTags b.tags)))
       (jsToLower f.search) = true))

/-- The record invariant exactly as the specification states it, decidably:
status is `lent` (reading an empty/missing status as `available`) exactly when
`lentTo` holds a non-empty string, and an `available` record has `lentTo`,
`lendDate` and `dueDate` strictly absent. -/
def bookInvB (b : Book) : Bool :=
  ((jsOrStr b.status "available" == "lent")
      == (match b.lentTo with | .str s => s != "" | _ => false)) &&
  (if jsOrStr b.status "available" == "available" then
    (b.lentTo == FVal.undef) && (b.lendDate == FVal.undef)
      && (b.dueDate == FVal.undef)
   else true)

/-- The record invariant that the UI operations actually maintain: as
`bookInvB`, except that a cleared loan field may be either absent or `null`
(the return handler writes `null`). -/
def bookInv (b : Book) : Prop :=
  (jsOrStr b.status "available" = "lent" ↔ ∃ s, b.lentTo = FVal.str s ∧ s ≠ "") ∧
  (jsOrStr b.status "available" = "available" →
    (b.lentTo = FVal.undef ∨ b.lentTo = FVal.null) ∧
    (b.lendDate = FVal.undef ∨ b.lendDate = FVal.null) ∧
    (b.dueDate = FVal.undef ∨ b.dueDate = FVal.null))

/-- The stores reachable from a fresh database through the add/edit modal, the
lend modal and the return action. -/
inductive Reachable : Store → Prop where
  | init : Reachable store0
  | save : ∀ (f : BookForm) (now : String) (st : Store),
      Reachable st → Reachable (saveBook f now st)
  | lend : ∀ (id : Nat) (lentTo ld dd now : String) (st : Store),
      Reachable st → Reachable (lendBook id lentTo ld dd now st)
  | ret : ∀ (id : Nat) (now : String) (st : Store),
      Reachable st → Reachable (returnBook id now st)

/-- Test record with a `The`-article title. -/
def bookHobbit : Book := { id := 1, title := .str "The Hobbit" }

/-- Test record with an article-free title. -/
def bookDune : Book := { id := 2, title := .str "Dune" }

/-- Test record with an `A`-article title. -/
def bookWizard : Book := { id := 3, title := .str "A Wizard of Earthsea" }

/-- Test record whose title normalizes to the empty string. -/
def bookBlank : Book := { id := 4, title := .str "  " }

/-- The record produced by adding a book titled `B` at `t0` and lending it to
`Alice` at `t1` (empty date inputs become `null`, the add flow leaves the cover
`null` and the tags empty). -/
def lentAliceBook : Book :=
  { id := 1
    title := .str "B"
    author := .str ""
    isbn := .str ""
    location := .str ""
    notes := .str ""
    tags := .lst []
    status := .str "lent"
    lentTo := .str "Alice"
    lendDate := .null
    dueDate := .null
    coverUrl := .null
    createdAt := .str "t0"
    updatedAt := .str "t1" }

/-- A two-record store with distinct positive ids, used to instantiate the
round-trip theorem. -/
def roundtripStore : Store :=
  { books :=
      [{ id := 1, title := .str "X", status := .str "available",
         createdAt := .str "t0", updatedAt := .str "t0" },
       { id := 2, title := .str "Y", status := .str "lent",
         lentTo := .str "Al", lendDate := .null,
         createdAt := .str "t0", updatedAt := .str "t5" }]
    nextId := 3 }

/-- The record the add flow hands to `Store.add`: the trimmed fields of the
book object built in the save handler, plus the status override and the two
stamps (`{ ...book, status: 'available', createdAt: now, updatedAt: now }`,
with the add flow's cover: the chosen file's data URL, else the prefill when
non-empty, else `null`). -/
def draftRecord (f : BookForm) (now : String) : Book :=
  { title := .str (jsTrim f.title)
    author := .str (jsTrim f.author)
    isbn := .str (jsTrim f.isbn)
    location := .str (jsTrim f.location)
    tags := .lst (parseTags f.tags)
    notes := .str (jsTrim f.notes)
    coverUrl :=
      match f.coverFile with
      | some u => .str u
      | none => if f.coverPrefill = "" then FVal.null else .str f.coverPrefill
    status := .str "available"
    createdAt := .str now
    updatedAt := .str now }

theorem FVal_over_self (v : FVal) : v.over v = v := by
  cases v <;> rfl

theorem TVal_over_self (v : TVal) : v.over v = v := by
  cases v <;> rfl

/-- Re-importing a record's own export merges it onto itself: every field
survives and only `updatedAt` is restamped. -/
theorem mergeBook_export_self (b : Book) (now : String) :
    mergeBook b (exportBook b) b.id now = { b with updatedAt := .str now } := by
  cases b
  simp [mergeBook, exportBook, FVal_over_self, TVal_over_self]


theorem mem_sortInsert (cmp : Book → Book → Ordering) (x b : Book) :
    ∀ l : List Book, b ∈ sortInsert cmp x l ↔ b = x ∨ b ∈ l := by
  intro l
  induction l with
  | nil => simp [sortInsert]
  | cons y ys ih =>
    by_cases h : cmp x y = .gt
    · simp only [sortInsert, if_pos h, List.mem_cons, ih]
      tauto
    · simp only [sortInsert, if_neg h, List.mem_cons]

theorem mem_sortByCmp (cmp : Book → Book → Ordering) (b : Book) :
    ∀ l : List Book, b ∈ sortByCmp cmp l ↔ b ∈ l := by
  intro l
  induction l with
  | nil => simp [sortByCmp]
  | cons x xs ih =>
    simp only [sortByCmp, mem_sortInsert, ih, List.mem_cons]

theorem mem_insertByKey (u b : Book) :
    ∀ l : List Book, b ∈ insertByKey u l ↔ b = u ∨ b ∈ l := by
  intro l
  induction l with
  | nil => simp [insertByKey]
  | cons y ys ih =>
    by_cases h : u.id < y.id
    · simp only [insertByKey, if_pos h, List.mem_cons]
    · simp only [insertByKey, if_neg h, List.mem_cons, ih]
      tauto

/-- Every record of `putBook`'s result is the put record or an old record. -/
theorem mem_putBook (st : Store) (u b : Book) (h : b ∈ (st.putBook u).books) :
    b = u ∨ b ∈ st.books := by
  unfold Store.putBook at h
  by_cases hc : st.books.any (fun x => x.id == u.id) = true
  · rw [if_pos hc] at h
    have h2 : b ∈ st.books.map (fun x => if x.id == u.id then u else x) := h
    rcases List.mem_map.mp h2 with ⟨x, hx, hxe⟩
    by_cases hid : (x.id == u.id) = true
    · rw [if_pos hid] at hxe
      exact Or.inl hxe.symm
    · rw [if_neg hid] at hxe
      exact Or.inr (hxe ▸ hx)
  · rw [if_neg hc] at h
    have h2 : b ∈ insertByKey u st.books := h
    rw [mem_insertByKey] at h2
    exact h2

/-- Every record of `addBook`'s result is the freshly keyed new record or an
old record. -/
theorem mem_addBook (st : Store) (u b : Book) (h : b ∈ (st.addBook u).books) :
    b = { u with id := st.nextId } ∨ b ∈ st.books := by
  have h2 : b ∈ st.books ++ [{ u with id := st.nextId }] := h
  rcases List.mem_append.mp h2 with h3 | h3
  · exact Or.inr h3
  · exact Or.inl (by simpa using h3)

/-- Empty filters match every record. -/
theorem matchesFilters_default (b : Book) :
    matchesFilters b {} = true := by
  simp [matchesFilters]

theorem find?_first (pre : List Book) (x : Book) (rest : List Book)
    (p : Book → Bool) (hpre : ∀ b ∈ pre, p b = false) (hx : p x = true) :
    (pre ++ x :: rest).find? p = some x := by
  induction pre with
  | nil => simp [List.find?, hx]
  | cons y ys ih =>
    have hy : p y = false := hpre y (by simp)
    simp only [List.cons_append, List.find?, hy]
    exact ih (fun b hb => hpre b (by simp [hb]))

theorem map_replace_of_forall_ne (u : Book) (l : List Book)
    (h : ∀ b ∈ l, b.id ≠ u.id) :
    l.map (fun x => if x.id == u.id then u else x) = l := by
  induction l with
  | nil => rfl
  | cons y ys ih =>
    have hy : (y.id == u.id) = false :=
      beq_false_of_ne (h y (List.mem_cons_self y ys))
    have he : (if (y.id == u.id) = true then u else y) = y := by
      rw [hy]
      simp
    rw [List.map_cons, he, ih (fun b hb => h b (List.mem_cons_of_mem y hb))]

/-- After replacing every record keyed like `u` by `u`, looking that key up
finds exactly `u`, provided the key occurred. -/
theorem find?_map_replace (u : Book) (l : List Book)
    (h : l.any (fun x => x.id == u.id) = true) :
    (l.map (fun x => if x.id == u.id then u else x)).find?
      (fun b => b.id == u.id) = some u := by
  induction l with
  | nil => simp at h
  | cons y ys ih =>
    by_cases hy : (y.id == u.id) = true
    · have he : (if (y.id == u.id) = true then u else y) = u := by
        rw [hy]
        simp
      rw [List.map_cons, he]
      simp [List.find?]
    · have hyf : (y.id == u.id) = false := by
        cases hv : (y.id == u.id)
        · rfl
        · exact absurd hv hy
      have he : (if (y.id == u.id) = true then u else y) = y := by
        rw [hyf]
        simp
      rw [List.map_cons, he]
      have hstep : List.find? (fun b => b.id == u.id)
          (y :: List.map (fun x => if x.id == u.id then u else x) ys)
          = List.find? (fun b => b.id == u.id)
              (List.map (fun x => if x.id == u.id then u else x) ys) := by
        simp [List.find?, hyf]
      rw [hstep]
      apply ih
      rw [List.any_cons, hyf] at h
      simpa using h

/-- A one-element import with no write failure commits that element against
the initial snapshot and succeeds. -/
theorem importData_single (e : RawElem) (st : Store) (now : String) :
    importData (.arr [e]) now (fun _ => false) st
      = (importStep st.books now st e, .success) := rfl

/-- An element with a falsy id — absent, `null`, `0`, or the empty string —
short-circuits `id && byId.has(id)` and always takes the add path. -/
theorem importStep_falsy_id (snapshot : List Book) (now : String) (st : Store)
    (r : RawBook)
    (h : r.id = .undef ∨ r.id = .null ∨ r.id = .num 0 ∨ r.id = .str "") :
    importStep snapshot now st (.obj r) = st.addBook (newFromRaw r now) := by
  have hlook : importLookup snapshot r.id = none := by
    rcases h with h | h | h | h <;> rw [h] <;> simp [importLookup]
  simp only [importStep, hlook]

/-- Claim C4 (confirmed): for every payload that is not an array, import fails
with the `Invalid format` error and the store is unchanged — the whole import
is aborted before any element is processed. -/
theorem import_rejects_non_array (st : Store) (now : String)
    (fail : Nat → Bool) :
    importData .nonArray now fail st = (st, .failure "Invalid format") := rfl

/-- Claim C10 (confirmed): import raises no error for an element that is
`null`/not an object or has a falsy id (`0`, `null`, the empty string): such
an element never takes the merge path — whatever the store holds — and is
always added as a new record; in particular importing `[null]` succeeds and
inserts a record with status `available`, fresh stamps and no title, so the
`title required` rule is not enforced on the import path. -/
theorem import_lenient_elements (st : Store) (now : String) :
    (importData (.arr [.nonObj]) now (fun _ => false) st
      = (st.addBook
          { status := .str "available", createdAt := .str now,
            updatedAt := .str now }, .success)) ∧
    (∀ r : RawBook,
      r.id = .undef ∨ r.id = .null ∨ r.id = .num 0 ∨ r.id = .str "" →
      importData (.arr [.obj r]) now (fun _ => false) st
        = (st.addBook (newFromRaw r now), .success)) := by
  constructor
  · rfl
  · intro r hr
    rw [importData_single, importStep_falsy_id st.books now st r hr]

/-- Witness for C10: importing the object `{id: 0, title: "T"}` into the fresh
store succeeds and adds it as a new record. -/
theorem import_lenient_elements_witness :
    importData (.arr [.obj { id := .num 0, title := .str "T" }]) "N"
        (fun _ => false) store0
      = (store0.addBook (newFromRaw { id := .num 0, title := .str "T" } "N"),
         .success) :=
  (import_lenient_elements store0 "N").2 { id := .num 0, title := .str "T" }
    (Or.inr (Or.inr (Or.inl rfl)))

/-- Claim C5 counterexample: importing `{id: 1, title: "X"}` into the fresh
store — no record with id 1 exists — inserts a new record whose freshly
assigned id is exactly 1, the supplied id, because the key generator's next
value coincides with it.  The claim's `(not the supplied one)` is therefore
false as stated. -/
theorem import_unmatched_id_cex :
    (store0.books.any (fun b => b.id == 1)) = false ∧
    (importData (.arr [.obj { id := .num 1, title := .str "X" }]) "T"
        (fun _ => false) store0).1.books.map (fun b => b.id) = [1] :=
  ⟨rfl, rfl⟩

/-- Claim C5 (amended): an element whose id is absent or matches no existing
record is inserted as a new record: the supplied id is discarded and the key
generator assigns `nextId` — which differs from the supplied id except when
the supplied id happens to equal the generator's next value — the status
defaults to `available` when absent, and both stamps are fresh. -/
theorem import_unmatched_id_adds_new (r : RawBook) (st : Store) (now : String)
    (h : ∀ n, r.id = .num n → ∀ b ∈ st.books, b.id ≠ n) :
    importData (.arr [.obj r]) now (fun _ => false) st
      = (st.addBook (newFromRaw r now), .success) ∧
    (st.addBook (newFromRaw r now)).books.map (fun b => b.id)
      = st.books.map (fun b => b.id) ++ [st.nextId] ∧
    (∀ n, r.id = .num n → n ≠ st.nextId →
      (st.addBook (newFromRaw r now)).books.map (fun b => b.id)
        ≠ st.books.map (fun b => b.id) ++ [n]) ∧
    (r.status = .undef → (newFromRaw r now).status = .str "available") ∧
    (newFromRaw r now).createdAt = .str now ∧
    (newFromRaw r now).updatedAt = .str now := by
  have hids : (st.addBook (newFromRaw r now)).books.map (fun b => b.id)
      = st.books.map (fun b => b.id) ++ [st.nextId] := by
    simp [Store.addBook]
  refine ⟨?_, hids, ?_, ?_, rfl, rfl⟩
  · rw [importData_single]
    have hlook : importLookup st.books r.id = none := by
      cases hid : r.id with
      | undef => rfl
      | null => rfl
      | str s => rfl
      | num n =>
        simp only [importLookup]
        rw [if_neg]
        rintro ⟨hn0, hany⟩
        rcases List.any_eq_true.mp hany with ⟨b, hb, hbe⟩
        exact h n hid b hb (by simpa using hbe)
    simp only [importStep, hlook]
  · intro n hn hne heq
    rw [hids] at heq
    have := List.append_inj_right heq rfl
    simp at this
    exact hne this.symm
  · intro hs
    simp [newFromRaw, hs, jsOrStr]

/-- Witness for C5: importing `{id: 9999, title: "X"}` into the two-record
store (ids 1 and 2) adds it as a new record. -/
theorem import_unmatched_id_adds_new_witness :
    importData (.arr [.obj { id := .num 9999, title := .str "X" }]) "T"
        (fun _ => false) roundtripStore
      = (roundtripStore.addBook
          (newFromRaw { id := .num 9999, title := .str "X" } "T"), .success) :=
  (import_unmatched_id_adds_new { id := .num 9999, title := .str "X" }
    roundtripStore "T"
    (by intro n hn; simp only [RawId.num.injEq] at hn; subst hn; decide)).1

theorem jsOrStr_str (s : String) : jsOrStr (.str s) "" = s := by
  by_cases h : s = "" <;> simp [jsOrStr, h]

/-- Claim C6 (confirmed): the filter function matches a record exactly when
the room filter, if set, equals its location, the status filter, if set,
equals its status (an empty status reading as `available`), and the search
text, if set, occurs case-insensitively in at least one of title, author,
isbn, or the comma-joined tags, taken individually. -/
theorem matchesFilters_iff_spec (b : Book) (f : Filters) :
    matchesFilters b f = true ↔ matchesFiltersSpec b f := by
  unfold matchesFilters matchesFiltersSpec
  by_cases h1 : f.room ≠ "" ∧ jsOrStr b.location "" ≠ f.room
  · rw [if_pos h1]
    simp only [Bool.false_eq_true, false_iff]
    rintro ⟨hr, -, -⟩
    exact h1.2 (hr h1.1)
  · rw [if_neg h1]
    by_cases h2 : f.status ≠ "" ∧ jsOrStr b.status "available" ≠ f.status
    · rw [if_pos h2]
      simp only [Bool.false_eq_true, false_iff]
      rintro ⟨-, hs, -⟩
      exact h2.2 (hs h2.1)
    · rw [if_neg h2]
      push_neg at h1 h2
      by_cases h3 : f.search = ""
      · rw [if_pos h3]
        simp only [true_iff]
        exact ⟨h1, h2, fun hs => absurd h3 hs⟩
      · rw [if_neg h3]
        simp only [List.map_cons, List.map_nil, List.any_cons, List.any_nil,
          Bool.or_eq_true, Bool.or_false, jsOrStr_str]
        constructor
        · intro hd
          exact ⟨h1, h2, fun _ => hd⟩
        · rintro ⟨-, -, hd⟩
          exact hd h3

/-- Claim C7 (confirmed): the comparator strips one leading article
case-insensitively — the claim's three titles normalize to `Hobbit`,
`Wizard of Earthsea` and `Dune` — empty normalized titles sort last, and
sorting the three example records yields
`["Dune", "The Hobbit", "A Wizard of Earthsea"]`.  (`localeCompare` with
`sensitivity: 'base'` is modelled as case-insensitive comparison, exact for
these ASCII titles.) -/
theorem compareByTitle_spec :
    (sortByCmp compareByTitle [bookHobbit, bookDune, bookWizard]
      = [bookDune, bookHobbit, bookWizard]) ∧
    normalizeTitle (.str "The Hobbit") = "Hobbit" ∧
    normalizeTitle (.str "A Wizard of Earthsea") = "Wizard of Earthsea" ∧
    normalizeTitle (.str "Dune") = "Dune" ∧
    (∀ a b : Book, normalizeTitle a.title = "" → normalizeTitle b.title ≠ "" →
      compareByTitle a b = .gt ∧ compareByTitle b a = .lt) := by
  refine ⟨by decide, by decide, by decide, by decide, ?_⟩
  intro a b ha hb
  constructor
  · simp [compareByTitle, ha, hb]
  · simp [compareByTitle, ha, hb]

/-- Witness for C7: a record whose title trims to nothing sorts after
`Dune`. -/
theorem compareByTitle_spec_witness :
    compareByTitle bookBlank bookDune = .gt :=
  (compareByTitle_spec.2.2.2.2 bookBlank bookDune (by decide) (by decide)).1

theorem any_of_find? (l : List Book) (p : Book → Bool) (b : Book)
    (h : l.find? p = some b) : l.any p = true :=
  List.any_eq_true.mpr ⟨b, List.mem_of_find?_eq_some h, List.find?_some h⟩

/-- After a `put` whose key already occurs, looking that key up finds exactly
the put record. -/
theorem find?_putBook (st : Store) (u : Book)
    (h : st.books.any (fun x => x.id == u.id) = true) :
    (st.putBook u).books.find? (fun b => b.id == u.id) = some u := by
  unfold Store.putBook
  rw [if_pos h]
  exact find?_map_replace u st.books h

/-- Claim C8 (confirmed): the add flow trims the draft's string fields, parses
the comma-separated tag string dropping only empty entries (duplicates are
kept, as `parseTags "a, a, , b"` shows), stamps `createdAt`/`updatedAt` to the
current time, forces `status = available`, and stores the record, which then
appears in an unfiltered listing with the same title/author/isbn; a draft
whose title trims to empty never reaches the store. -/
theorem addFlow_spec (f : BookForm) (now : String) (st : Store)
    (hid : f.id = none) :
    (jsTrim f.title = "" → saveBook f now st = st) ∧
    (jsTrim f.title ≠ "" →
      saveBook f now st = st.addBook (draftRecord f now) ∧
      ∃ b ∈ listBooks (saveBook f now st) {},
        b.title = .str (jsTrim f.title) ∧ b.author = .str (jsTrim f.author) ∧
        b.isbn = .str (jsTrim f.isbn) ∧ b.status = .str "available" ∧
        b.createdAt = .str now ∧ b.updatedAt = .str now) ∧
    parseTags "a, a, , b" = ["a", "a", "b"] := by
  have hsave : saveBook f now st
      = if jsTrim f.title = "" then st
        else st.addBook (draftRecord f now) := by
    unfold saveBook draftRecord
    rw [hid]
    rfl
  refine ⟨fun he => ?_, fun hne => ⟨?_, ?_⟩, by decide⟩
  · rw [hsave, if_pos he]
  · rw [hsave, if_neg hne]
  · rw [hsave, if_neg hne]
    refine ⟨{ draftRecord f now with id := st.nextId }, ?_,
      rfl, rfl, rfl, rfl, rfl, rfl⟩
    unfold listBooks
    rw [mem_sortByCmp]
    refine List.mem_filter.mpr ⟨?_, matchesFilters_default _⟩
    exact List.mem_append_right _ (by simp [Store.addBook])

/-- Witness for C8: a draft whose title is only spaces fails validation and
leaves the fresh store untouched. -/
theorem addFlow_spec_witness :
    saveBook { title := "   " } "N" store0 = store0 :=
  (addFlow_spec { title := "   " } "N" store0 rfl).1 (by decide)

/-- `find?_putBook` stated against any predicate key equal to the put
record's. -/
theorem find?_putBook_pred (st : Store) (u : Book) (i : Nat)
    (hui : u.id = i) (h : st.books.any (fun x => x.id == i) = true) :
    (st.putBook u).books.find? (fun b => b.id == i) = some u := by
  subst hui
  exact find?_putBook st u h

/-- Claim C9 (confirmed): lending an existing record requires a borrower name
that is non-empty after trimming — otherwise the store is unchanged — and on
success sets `status = lent`, stores the trimmed `lentTo` and the optional
dates (empty date inputs become `null`), and stamps `updatedAt`; a subsequent
return sets `status = available`, clears the three loan fields to `null`, and
stamps `updatedAt`. -/
theorem lend_return_spec (st : Store) (id : Nat) (book : Book)
    (lentToRaw ld dd now now2 : String)
    (hfind : st.books.find? (fun b => b.id == id) = some book) :
    (jsTrim lentToRaw = "" → lendBook id lentToRaw ld dd now st = st) ∧
    (jsTrim lentToRaw ≠ "" →
      (lendBook id lentToRaw ld dd now st).books.find? (fun b => b.id == id)
        = some { book with
            status := .str "lent"
            lentTo := .str (jsTrim lentToRaw)
            lendDate := if ld = "" then FVal.null else .str (dateToISO ld)
            dueDate := if dd = "" then FVal.null else .str (dateToISO dd)
            updatedAt := .str now } ∧
      (returnBook id now2 (lendBook id lentToRaw ld dd now st)).books.find?
          (fun b => b.id == id)
        = some { book with
            status := .str "available"
            lentTo := FVal.null
            lendDate := FVal.null
            dueDate := FVal.null
            updatedAt := .str now2 }) := by
  have hbid : book.id = id := by
    have h0 := List.find?_some hfind
    simpa using h0
  have hany : st.books.any (fun x => x.id == id) = true :=
    any_of_find? st.books (fun b => b.id == id) book hfind
  constructor
  · intro he
    simp only [lendBook, hfind]
    rw [if_pos he]
  · intro hne
    set upd : Book := { book with
        status := .str "lent"
        lentTo := .str (jsTrim lentToRaw)
        lendDate := if ld = "" then FVal.null else .str (dateToISO ld)
        dueDate := if dd = "" then FVal.null else .str (dateToISO dd)
        updatedAt := .str now } with hupd
    have hlend : lendBook id lentToRaw ld dd now st = st.putBook upd := by
      simp only [lendBook, hfind]
      rw [if_neg hne, hupd]
    have hfind2 : (st.putBook upd).books.find? (fun b => b.id == id)
        = some upd := find?_putBook_pred st upd id hbid hany
    have hany2 : (st.putBook upd).books.any (fun x => x.id == id) = true :=
      any_of_find? _ (fun b => b.id == id) upd hfind2
    refine ⟨by rw [hlend]; exact hfind2, ?_⟩
    rw [hlend]
    simp only [returnBook, hfind2]
    exact find?_putBook_pred (st.putBook upd) _ id hbid hany2

/-- Witness for C9: lending book 1 of the singleton store to `Alice` at `t1`
then returning it at `t2` shows the lent and returned records. -/
theorem lend_return_spec_witness :
    (lendBook 1 " Alice " "" "" "t1"
        (saveBook { title := "B" } "t0" store0)).books.find?
        (fun b => b.id == 1)
      = some { lentAliceBook with lentTo := .str "Alice" } ∧
    (returnBook 1 "t2" (lendBook 1 " Alice " "" "" "t1"
        (saveBook { title := "B" } "t0" store0))).books.find?
        (fun b => b.id == 1)
      = some { lentAliceBook with
          status := .str "available"
          lentTo := FVal.null
          updatedAt := .str "t2" } :=
  (lend_return_spec (saveBook { title := "B" } "t0" store0) 1
    { lentAliceBook with
      status := .str "available"
      lentTo := FVal.undef
      lendDate := FVal.undef
      dueDate := FVal.undef
      updatedAt := .str "t0" }
    " Alice " "" "" "t1" "t2" (by decide)).2 (by decide)

theorem exportBook_id (b : Book) : (exportBook b).id = .num b.id := rfl

theorem importGo_cons_nofail (snapshot : List Book) (now : String) (k : Nat)
    (e : RawElem) (rest : List RawElem) (st : Store) :
    importGo snapshot now (fun _ => false) k (e :: rest) st
      = importGo snapshot now (fun _ => false) (k + 1) rest
          (importStep snapshot now st e) := rfl

/-- Replacing by key when the keyed record sits between records with other
keys rewrites exactly that record. -/
theorem putBook_split (st : Store) (u y : Book) (l1 l2 : List Book)
    (hb : st.books = l1 ++ y :: l2) (hy : y.id = u.id)
    (h1 : ∀ b ∈ l1, b.id ≠ u.id) (h2 : ∀ b ∈ l2, b.id ≠ u.id) :
    st.putBook u = { books := l1 ++ u :: l2
                     nextId := st.nextId } := by
  unfold Store.putBook
  have hany : st.books.any (fun z => z.id == u.id) = true := by
    rw [hb]
    exact List.any_eq_true.mpr ⟨y, by simp, by simp [hy]⟩
  rw [if_pos hany]
  have hmap : st.books.map (fun z => if z.id == u.id then u else z)
      = l1 ++ u :: l2 := by
    rw [hb, List.map_append, List.map_cons,
      map_replace_of_forall_ne u l1 h1, map_replace_of_forall_ne u l2 h2,
      hy]
    simp
  rw [hmap]

/-- The import loop invariant behind the export/import round trip: with the
snapshot split as a processed prefix and a pending suffix, and the store
holding the restamped prefix next to the untouched suffix, replaying the
suffix's exports restamps exactly the suffix. -/
theorem roundtrip_go (now : String) :
    ∀ (suf pre : List Book) (k nid : Nat),
      (∀ b ∈ pre ++ suf, b.id ≠ 0) →
      ((pre ++ suf).map (fun b => b.id)).Nodup →
      importGo (pre ++ suf) now (fun _ => false) k
          (suf.map (fun b => .obj (exportBook b)))
          { books := pre.map (fun b => { b with updatedAt := FVal.str now })
              ++ suf
            nextId := nid }
        = ({ books := (pre ++ suf).map
              (fun b => { b with updatedAt := FVal.str now })
             nextId := nid }, .success) := by
  intro suf
  induction suf with
  | nil =>
    intro pre k nid hpos hnodup
    simp [importGo]
  | cons x rest ih =>
    intro pre k nid hpos hnodup
    have hnodup2 := hnodup
    rw [List.map_append, List.map_cons, List.nodup_append] at hnodup2
    obtain ⟨hnpre, hncons, hdisj⟩ := hnodup2
    have hxpre : ∀ p ∈ pre, p.id ≠ x.id := by
      intro p hp heq
      exact hdisj (List.mem_map_of_mem _ hp) (heq ▸ List.mem_cons_self _ _)
    have hxrest : ∀ p ∈ rest, p.id ≠ x.id := by
      intro p hp heq
      have hnotin := (List.nodup_cons.mp hncons).1
      exact hnotin (heq ▸ List.mem_map_of_mem _ hp)
    have hx0 : x.id ≠ 0 := hpos x (by simp)
    have hxany : (pre ++ x :: rest).any (fun b => b.id == x.id) = true :=
      List.any_eq_true.mpr ⟨x, by simp, by simp⟩
    have hprene : ∀ b ∈ pre, (fun b => b.id == x.id) b = false := by
      intro b hb
      simp [hxpre b hb]
    have hfindx : (pre ++ x :: rest).find? (fun b => b.id == x.id) = some x :=
      find?_first pre x rest _ hprene (by simp)
    have hlook : importLookup (pre ++ x :: rest) (.num x.id)
        = some (x.id, x) := by
      simp only [importLookup]
      rw [if_pos ⟨hx0, hxany⟩, hfindx]
      rfl
    have hstep2 : importStep (pre ++ x :: rest) now
        { books := pre.map (fun b => { b with updatedAt := FVal.str now })
            ++ x :: rest
          nextId := nid }
        (.obj (exportBook x))
        = Store.putBook
            { books := pre.map (fun b => { b with updatedAt := FVal.str now })
                ++ x :: rest
              nextId := nid }
            { x with updatedAt := FVal.str now } := by
      simp only [importStep, exportBook_id, hlook]
      rw [mergeBook_export_self]
    have hput : Store.putBook
        { books := pre.map (fun b => { b with updatedAt := FVal.str now })
            ++ x :: rest
          nextId := nid }
        { x with updatedAt := FVal.str now }
        = { books := pre.map (fun b => { b with updatedAt := FVal.str now })
              ++ { x with updatedAt := FVal.str now } :: rest
            nextId := nid } := by
      refine putBook_split _ ({ x with updatedAt := FVal.str now }) x _ rest
        rfl rfl ?_ ?_
      · intro b hb
        rcases List.mem_map.mp hb with ⟨p, hp, rfl⟩
        exact hxpre p hp
      · exact hxrest
    have hlist : pre.map (fun b => { b with updatedAt := FVal.str now })
        ++ { x with updatedAt := FVal.str now } :: rest
        = (pre ++ [x]).map (fun b => { b with updatedAt := FVal.str now })
            ++ rest := by
      rw [List.map_append]
      simp
    rw [List.map_cons, importGo_cons_nofail, hstep2, hput, hlist,
      List.append_cons pre x rest]
    exact ih (pre ++ [x]) (k + 1) nid
      (by intro b hb; apply hpos; rw [List.append_cons]; exact hb)
      (by rw [← List.append_cons]; exact hnodup)

/-- Claim C3 (confirmed): exporting the whole collection and re-importing the
exported array — every element carrying its original id — leaves the
collection observably unchanged: the same records in the same order with the
same ids, fields and statuses, each merged record equal to the original
except that `updatedAt` is restamped to the (later) import time.  The
hypotheses hold for every store the app can build: ids are generator-assigned,
hence positive and pairwise distinct. -/
theorem export_import_roundtrip (st : Store) (now : String)
    (hpos : ∀ b ∈ st.books, b.id ≠ 0)
    (hnodup : (st.books.map (fun b => b.id)).Nodup) :
    importData (.arr (exportData st)) now (fun _ => false) st
      = ({ st with books := st.books.map
                      (fun b => { b with updatedAt := FVal.str now }) },
         .success) ∧
    (importData (.arr (exportData st)) now (fun _ => false) st).1.books.map
        (fun b => b.id) = st.books.map (fun b => b.id) ∧
    (importData (.arr (exportData st)) now (fun _ => false) st).1.books.map
        (fun b => jsOrStr b.status "available")
      = st.books.map (fun b => jsOrStr b.status "available") := by
  have h0 := roundtrip_go now st.books [] 0 st.nextId
    (by simpa using hpos) (by simpa using hnodup)
  simp only [List.nil_append, List.map_nil] at h0
  have hmain : importData (.arr (exportData st)) now (fun _ => false) st
      = ({ st with books := st.books.map
                      (fun b => { b with updatedAt := FVal.str now }) },
         .success) := h0
  refine ⟨hmain, ?_, ?_⟩
  · rw [hmain]
    exact List.map_map (fun b => b.id)
      (fun b => { b with updatedAt := FVal.str now }) st.books
  · rw [hmain]
    exact List.map_map (fun b => jsOrStr b.status "available")
      (fun b => { b with updatedAt := FVal.str now }) st.books

/-- Witness for C3: the round trip on the two-record store restamps both
records to the import time and changes nothing else. -/
theorem export_import_roundtrip_witness :
    importData (.arr (exportData roundtripStore)) "t9" (fun _ => false)
        roundtripStore
      = ({ roundtripStore with books := roundtripStore.books.map
                                  (fun b => { b with
                                    updatedAt := FVal.str "t9" }) },
         .success) :=
  (export_import_roundtrip roundtripStore "t9" (by decide) (by decide)).1

/-- With no id (or the falsy id 0), the save handler takes the add path. -/
theorem saveBook_add_eq (f : BookForm) (now : String) (st : Store)
    (hid : f.id = none ∨ f.id = some 0) :
    saveBook f now st
      = if jsTrim f.title = "" then st
        else st.addBook (draftRecord f now) := by
  rcases hid with h | h
  · unfold saveBook draftRecord
    rw [h]
    rfl
  · unfold saveBook draftRecord
    rw [h]
    rfl

/-- With a truthy id, the save handler takes the edit path: the trimmed form
fields overlaid on the cached record (or on `{}` when the id is not in the
cache), id preserved, `updatedAt` stamped; status and the loan fields are not
part of the form and survive untouched. -/
theorem saveBook_edit_eq (f : BookForm) (now : String) (st : Store) (i : Nat)
    (hid : f.id = some i) (hi : i ≠ 0) :
    saveBook f now st
      = if jsTrim f.title = "" then st
        else
          st.putBook
            { (st.books.find? (fun b => b.id == i)).getD {} with
              id := i
              title := .str (jsTrim f.title)
              author := .str (jsTrim f.author)
              isbn := .str (jsTrim f.isbn)
              location := .str (jsTrim f.location)
              tags := .lst (parseTags f.tags)
              notes := .str (jsTrim f.notes)
              coverUrl :=
                match f.coverFile with
                | some u => .str u
                | none =>
                  match st.books.find? (fun b => b.id == i) with
                  | some ex => coverOrNull ex.coverUrl
                  | none => FVal.null
              updatedAt := .str now } := by
  unfold saveBook
  rw [hid]
  simp only [normId]
  rw [if_neg hi]

/-- The record built by the add flow satisfies the loan-field invariant. -/
theorem bookInv_draft (f : BookForm) (now : String) (n : Nat) :
    bookInv { draftRecord f now with id := n } := by
  simp [bookInv, draftRecord, jsOrStr]

/-- The loan-field invariant only looks at status and the loan fields, so the
empty base of an edit with an unknown id satisfies it. -/
theorem bookInv_empty : bookInv ({} : Book) := by
  simp [bookInv, jsOrStr]

/-- The save handler preserves the loan-field invariant: the add path writes
`status: 'available'` with no loan fields, the edit path copies status and
loan fields from the base record. -/
theorem saveBook_preserves_inv (f : BookForm) (now : String) (st : Store)
    (ih : ∀ b ∈ st.books, bookInv b) :
    ∀ b ∈ (saveBook f now st).books, bookInv b := by
  intro b hb
  have haddcase : ∀ (hid : f.id = none ∨ f.id = some 0),
      b ∈ (saveBook f now st).books → bookInv b := by
    intro hid hb2
    rw [saveBook_add_eq f now st hid] at hb2
    by_cases ht : jsTrim f.title = ""
    · rw [if_pos ht] at hb2
      exact ih b hb2
    · rw [if_neg ht] at hb2
      rcases mem_addBook _ _ _ hb2 with rfl | hbmem
      · exact bookInv_draft f now st.nextId
      · exact ih b hbmem
  rcases hfi : f.id with _ | i
  · exact haddcase (Or.inl hfi) hb
  · by_cases hi0 : i = 0
    · subst hi0
      exact haddcase (Or.inr hfi) hb
    · rw [saveBook_edit_eq f now st i hfi hi0] at hb
      by_cases ht : jsTrim f.title = ""
      · rw [if_pos ht] at hb
        exact ih b hb
      · rw [if_neg ht] at hb
        rcases mem_putBook _ _ _ hb with rfl | hbmem
        · have hbase : bookInv ((st.books.find? (fun b => b.id == i)).getD {}) := by
            cases hf : st.books.find? (fun b => b.id == i) with
            | none => exact bookInv_empty
            | some base0 =>
              simp only [Option.getD_some]
              exact ih base0 (List.mem_of_find?_eq_some hf)
          exact hbase
        · exact ih b hbmem

/-- The lend handler preserves the loan-field invariant: it only commits with
a non-empty trimmed borrower, writing `status: 'lent'` with that borrower. -/
theorem lendBook_preserves_inv (id : Nat) (lentToRaw ld dd now : String)
    (st : Store) (ih : ∀ b ∈ st.books, bookInv b) :
    ∀ b ∈ (lendBook id lentToRaw ld dd now st).books, bookInv b := by
  intro b hb
  cases hf : st.books.find? (fun x => x.id == id) with
  | none =>
    simp only [lendBook, hf] at hb
    exact ih b hb
  | some book =>
    simp only [lendBook, hf] at hb
    by_cases ht : jsTrim lentToRaw = ""
    · rw [if_pos ht] at hb
      exact ih b hb
    · rw [if_neg ht] at hb
      rcases mem_putBook _ _ _ hb with rfl | hbmem
      · constructor
        · constructor
          · intro _
            exact ⟨jsTrim lentToRaw, rfl, ht⟩
          · intro _
            rfl
        · intro hav
          simp [jsOrStr] at hav
      · exact ih b hbmem

/-- The return handler preserves the loan-field invariant: it writes
`status: 'available'` and `null` loan fields. -/
theorem returnBook_preserves_inv (id : Nat) (now : String) (st : Store)
    (ih : ∀ b ∈ st.books, bookInv b) :
    ∀ b ∈ (returnBook id now st).books, bookInv b := by
  intro b hb
  cases hf : st.books.find? (fun x => x.id == id) with
  | none =>
    simp only [returnBook, hf] at hb
    exact ih b hb
  | some book =>
    simp only [returnBook, hf] at hb
    rcases mem_putBook _ _ _ hb with rfl | hbmem
    · constructor
      · constructor
        · intro hl
          simp [jsOrStr] at hl
        · rintro ⟨s, hs, -⟩
          exact absurd hs (by simp)
      · intro _
        exact ⟨Or.inr rfl, Or.inr rfl, Or.inr rfl⟩
    · exact ih b hbmem

/-- Claim C2 (amended): in every store reachable through the add/edit modal,
the lend modal and the return action, every record satisfies: effective
status `lent` (an absent/empty status reads as `available`) exactly when
`lentTo` holds a non-empty string, and effective status `available` implies
`lentTo`, `lendDate` and `dueDate` are absent or `null`.  The import
operation is excluded: it can write records violating the invariant, and the
return handler clears to `null` rather than deleting the keys. -/
theorem reachable_status_invariant (st : Store) (h : Reachable st) :
    ∀ b ∈ st.books, bookInv b := by
  induction h with
  | init =>
    intro b hb
    simp [store0] at hb
  | save f now st hst ih => exact saveBook_preserves_inv f now st ih
  | lend id lt ld dd now st hst ih =>
    exact lendBook_preserves_inv id lt ld dd now st ih
  | ret id now st hst ih => exact returnBook_preserves_inv id now st ih

/-- Witness for C2 (amended): the record lent to `Alice` in a store built by
add-then-lend satisfies the invariant. -/
theorem reachable_status_invariant_witness :
    bookInv lentAliceBook :=
  reachable_status_invariant
    (lendBook 1 "Alice" "" "" "t1" (saveBook { title := "B" } "t0" store0))
    (Reachable.lend 1 "Alice" "" "" "t1" _
      (Reachable.save { title := "B" } "t0" _ Reachable.init))
    lentAliceBook (by decide)

/-- Claim C2 counterexample: the claim fails as stated.  Importing
`[{status:'lent'}]` into the fresh store — import is one of the claim's
public operations — creates a record with `status = lent` and no `lentTo`,
violating the claimed equivalence; moreover add-then-lend-then-return leaves
`lentTo = null` (present, not absent), so even the reachable-by-UI states
only satisfy the invariant with `cleared` read as `absent or null`. -/
theorem status_invariant_cex :
    ((importData (.arr [.obj { status := FVal.str "lent" }]) "T"
        (fun _ => false) store0).1.books.all bookInvB) = false ∧
    (returnBook 1 "t2" (lendBook 1 "Alice" "" "" "t1"
        (saveBook { title := "B" } "t0" store0))).books.all bookInvB = false ∧
    (returnBook 1 "t2" (lendBook 1 "Alice" "" "" "t1"
        (saveBook { title := "B" } "t0" store0))).books.map
        (fun b => b.lentTo) = [FVal.null] :=
  ⟨by decide, by decide, by decide⟩

/-- The import loop up to the first failing write: elements before it are
committed one by one; the failing element throws to the surrounding catch. -/
theorem importGo_abort (snapshot : List Book) (now : String)
    (fail : Nat → Bool) :
    ∀ (pre : List RawElem) (e : RawElem) (post : List RawElem) (k : Nat)
      (st : Store),
      (∀ i, i < pre.length → fail (k + i) = false) →
      fail (k + pre.length) = true →
      importGo snapshot now fail k (pre ++ e :: post) st
        = (pre.foldl (fun acc el => importStep snapshot now acc el) st,
           .failure "StorageError") := by
  intro pre
  induction pre with
  | nil =>
    intro e post k st hpre hf
    have hk : fail k = true := by simpa using hf
    simp only [List.nil_append, importGo, List.foldl_nil]
    rw [if_pos hk]
  | cons x xs ihp =>
    intro e post k st hpre hf
    have hk : fail k = false := by
      have h0 := hpre 0 (by simp)
      simpa using h0
    simp only [List.cons_append, importGo, List.foldl_cons]
    rw [if_neg (by simp [hk])]
    refine ihp e post (k + 1) (importStep snapshot now st x) ?_ ?_
    · intro i hi
      have h2 := hpre (i + 1) (by simpa using Nat.succ_lt_succ hi)
      have h3 : k + (i + 1) = k + 1 + i := by omega
      rw [h3] at h2
      exact h2
    · have h4 : k + (x :: xs).length = k + 1 + xs.length := by
        simp
        omega
      rw [h4] at hf
      exact hf

/-- Claim C1 (amended): when the durable write for one element fails, the
loop of import throws at that element: the single try/catch around the whole
loop reports the failure to the user, previously committed elements stay
committed — the store holds exactly the effects of the elements before the
failing one — the remaining elements are NOT processed, and no
{added, merged, failed} summary exists: the caller observes only success or
the first error. -/
theorem import_failure_aborts (pre : List RawElem) (e : RawElem)
    (post : List RawElem) (st : Store) (now : String) (fail : Nat → Bool)
    (hpre : ∀ i, i < pre.length → fail i = false)
    (hf : fail pre.length = true) :
    importData (.arr (pre ++ e :: post)) now fail st
      = (pre.foldl (fun acc el => importStep st.books now acc el) st,
         .failure "StorageError") := by
  unfold importData
  exact importGo_abort st.books now fail pre e post 0 st
    (fun i hi => by simpa using hpre i hi) (by simpa using hf)

/-- Witness for C1 (amended): with the write of the second element failing,
only the first element is committed and the import ends in the failure
alert. -/
theorem import_failure_aborts_witness :
    importData (.arr [.obj { title := FVal.str "X" },
        .obj { title := FVal.str "Y" }, .nonObj]) "T" (fun i => i == 1) store0
      = ([RawElem.obj { title := FVal.str "X" }].foldl
          (fun acc el => importStep store0.books "T" acc el) store0,
         .failure "StorageError") :=
  import_failure_aborts [.obj { title := FVal.str "X" }]
    (.obj { title := FVal.str "Y" }) [.nonObj] store0 "T" (fun i => i == 1)
    (by decide) (by decide)

/-- Claim C1 counterexample: importing `[{title:'X'}, {title:'Y'}]` into the
fresh store with the first element's write failing leaves the store with no
records at all — the remaining element is NOT processed to completion as the
claim states — and the outcome is the failure alert; nothing resembling an
{added, merged, failed} summary is produced. -/
theorem import_failure_cex :
    importData (.arr [.obj { title := FVal.str "X" },
        .obj { title := FVal.str "Y" }]) "T" (fun i => i == 0) store0
      = (store0, .failure "StorageError") ∧
    ((importData (.arr [.obj { title := FVal.str "X" },
        .obj { title := FVal.str "Y" }]) "T" (fun i => i == 0)
        store0).1.books.any (fun b => b.title == FVal.str "Y")) = false :=
  ⟨rfl, rfl⟩

/-- Witness for C6: the Earthsea record matches the search text `wizard` and
the equivalence transports this to the spec-side predicate. -/
theorem matchesFilters_iff_spec_witness :
    matchesFiltersSpec bookWizard { search := "wizard" } :=
  (matchesFilters_iff_spec bookWizard { search := "wizard" }).mp (by decide)
